import Mathlib

/-!
Verification of the PSII-to-PNG transformer (AgPipeline/moving-transformer-psii2png).

This file shallowly embeds the numeric core of `src/transformer.py`:

  * `__internal__.load_image_file` — loads an image and casts to uint8;
  * `__internal__.analyze` — F-max frame selection, `fvar = fmax - fmin`
    (uint8 arithmetic), `fvfm = fvar / fmax` (float division), the three
    sanitization masked assignments, and the 20-bin `np.histogram`;
  * `check_continue` — the 102-ending completeness check;
  * `perform_process` — the per-file loop (decode, per-frame outputs,
    `files_processed` counter) and the aggregate/analyze invocation with
    its try/except result shaping.

Machine integers are modelled as `Nat` with explicit `% 256` where the code
works on uint8 arrays; IEEE floats are modelled as an inductive carrying a
rational (the exact values the code manipulates here are small integer
quotients, NaN and infinities, for which rational arithmetic is exact).
-/

set_option maxRecDepth 8192

namespace PsiiPng

/-- Model of a numpy float64 value as the analyzer sees it: NaN, the two
infinities, or a finite value (exact rational). -/
inductive NpFloat where
  | nan : NpFloat
  | inf : NpFloat
  | neginf : NpFloat
  | val : ℚ → NpFloat
deriving DecidableEq

/-- `np.isnan` on one element. -/
def isNaNF : NpFloat → Bool
  | .nan => true
  | _ => false

/-- `np.isinf` on one element (true for both infinities). -/
def isInfF : NpFloat → Bool
  | .inf => true
  | .neginf => true
  | _ => false

/-- The elementwise comparison `fvfm > 1.0` of the third sanitization mask:
NaN compares false, `+inf > 1` is true, `-inf > 1` is false. -/
def gtOneF : NpFloat → Bool
  | .nan => false
  | .inf => true
  | .neginf => false
  | .val q => decide (1 < q)

/-- The finite payload of a sanitized element (`0` for the non-finite
constructors, which sanitization has already removed when this is used). -/
def toRatF : NpFloat → ℚ
  | .val q => q
  | _ => 0

/-- uint8 cast: `.astype('uint8')` keeps a value modulo 2^8. -/
def toU8 (n : Nat) : Nat := n % 256

/-- `__internal__.load_image_file`: the pixel buffer cast to uint8
(`np.array(image_data).astype('uint8')`), a frame modelled as the flat list
of its pixel values. -/
def load_image_file (img : List Nat) : List Nat := img.map toU8

/-- `np.subtract` on two uint8 scalars: C unsigned arithmetic, the
difference modulo 2^8 (wrap-around on underflow). -/
def sub8 (a b : Nat) : Nat := (a % 256 + 256 - b % 256) % 256

/-- `np.divide` on float-cast uint8 scalars: `0/0` is NaN, `x/0` with
`x > 0` is `+inf`, otherwise the exact quotient `v / m` (written `mkRat`,
which is that quotient). -/
def fdiv (v m : Nat) : NpFloat :=
  if m = 0 then (if v = 0 then .nan else .inf) else .val (mkRat v m)

/-- First masked assignment: `fvfm[np.where(np.isnan(fvfm))] = 0`. -/
def sanitizeNaN (x : NpFloat) : NpFloat := if isNaNF x then .val 0 else x

/-- Second masked assignment: `fvfm[np.where(np.isinf(fvfm))] = 0`. -/
def sanitizeInf (x : NpFloat) : NpFloat := if isInfF x then .val 0 else x

/-- Third masked assignment: `fvfm[np.where(fvfm > 1.0)] = 0`. -/
def sanitizeGtOne (x : NpFloat) : NpFloat := if gtOneF x then .val 0 else x

/-- The three sanitization lines of `__internal__.analyze`, applied in the
source's order to one element. -/
def sanitizeF (x : NpFloat) : NpFloat := sanitizeGtOne (sanitizeInf (sanitizeNaN x))

/-- `np.max` over one frame's pixels (frames are nonempty in every run the
code performs; the fold's base 0 is below every uint8 value). -/
def frameMax (f : List Nat) : Nat := f.foldr max 0

/-- The `fave` list of `__internal__.analyze`: the frame-level maximum of
the dark frame at index 0 followed by those of candidate frames 2..100
(`for i in range(2, 101)`), 100 entries in all. -/
def faveList (frames : Nat → List Nat) : List Nat :=
  frameMax (load_image_file (frames 0)) ::
    (List.range 99).map (fun j => frameMax (load_image_file (frames (j + 2))))

/-- `np.where(fave == np.max(fave))[0][0]`: the first position in the
`fave` list holding its maximum.  The code then loads `frames[...]` at this
POSITION (not at the frame index the position stands for). -/
def selIdx (frames : Nat → List Nat) : Nat :=
  (faveList frames).indexOf ((faveList frames).foldr max 0)

/-- `np.min` over a nonempty array; `0` is numpy's default lower range edge
for an empty array (`np.histogram` uses range `(0, 1)` when there is no
data). -/
def listMinQ : List ℚ → ℚ
  | [] => 0
  | x :: xs => xs.foldl min x

/-- `np.max` over a nonempty array; `1` is numpy's default upper range edge
for an empty array. -/
def listMaxQ : List ℚ → ℚ
  | [] => 1
  | x :: xs => xs.foldl max x

/-- numpy's `_get_outer_edges`: the histogram range is the data's min and
max, widened to `(min - 0.5, max + 0.5)` when the two coincide. -/
def histEdgesRange (data : List ℚ) : ℚ × ℚ :=
  let a := listMinQ data
  let b := listMaxQ data
  if a = b then (a - 1/2, b + 1/2) else (a, b)

/-- The bin a value falls in under numpy's uniform binning over
`[first, last)` split in 20, the last bin closed on the right. -/
def binIdx (first last x : ℚ) : Nat :=
  min 19 (Int.toNat ⌊(x - first) * 20 / (last - first)⌋)

/-- `np.histogram(fvfm, bins=20)`: 20 bin counts (values outside the range
are not counted; here the range is the data's own min/max so none are) and
the 21 uniform bin edges. -/
def histogram (data : List ℚ) : List Nat × List ℚ :=
  let fl := histEdgesRange data
  ((List.range 20).map (fun b =>
      data.countP (fun x =>
        decide (fl.1 ≤ x) && decide (x ≤ fl.2) && (binIdx fl.1 fl.2 x == b))),
   (List.range 21).map (fun (i : ℕ) => fl.1 + (i : ℚ) * (fl.2 - fl.1) / 20))

/-- The numeric outputs of `__internal__.analyze`: the sanitized Fv/Fm
array, the histogram bin counts and the bin edges. -/
structure AnalyzeOut where
  fvfm : List NpFloat
  hist : List Nat
  bins : List ℚ
deriving DecidableEq

/-- The array pipeline of `__internal__.analyze` up to sanitization: load
F-min (`frames[1]`), load the frame the code picks as F-max
(`frames[np.where(fave == np.max(fave))[0][0]]`), form
`fvar = np.subtract(fmax, fmin)` (uint8), `fvfm = np.divide(fvar.astype(float),
fmax.astype(float))`, and apply the three sanitization lines. -/
def fvfmSanitized (frames : Nat → List Nat) : List NpFloat :=
  let fmin := load_image_file (frames 1)
  let fmaxA := load_image_file (frames (selIdx frames))
  (List.zipWith fdiv (List.zipWith sub8 fmaxA fmin) fmaxA).map sanitizeF

/-- The numeric pipeline of `__internal__.analyze` on a frame sequence
(index `i` holding frame `i`'s pixel buffer): the sanitized Fv/Fm array
followed by `np.histogram(fvfm, bins=20)`. -/
def analyzeModel (frames : Nat → List Nat) : AnalyzeOut :=
  let san := fvfmSanitized frames
  let hb := histogram (san.map toRatF)
  ⟨san, hb.1, hb.2⟩

/-! ## The division fallback of `__internal__.analyze`

`fvfm = np.divide(...)` sits in a `try`; on any exception the code runs
`fvfm = 0`, binding `fvfm` to the Python scalar int 0.  The next statement,
`fvfm[np.where(np.isnan(fvfm))] = 0`, is an item assignment, which a Python
int does not support. -/

/-- The value bound to `fvfm` after the `try`/`except`: a numpy array when
the division succeeded, the scalar int `0` from `fvfm = 0` when it raised. -/
inductive FvfmVal where
  | arr : List NpFloat → FvfmVal
  | intScalar : Int → FvfmVal
deriving DecidableEq

/-- The `try` block: `np.divide` when it can be performed (`divOk`),
otherwise the `except` branch's `fvfm = 0`. -/
def tryDivide (divOk : Bool) (fvar fmaxA : List Nat) : FvfmVal :=
  if divOk then .arr (List.zipWith fdiv fvar fmaxA) else .intScalar 0

/-- The first sanitization statement after the `try`/`except`:
`fvfm[np.where(np.isnan(fvfm))] = 0` and the two masked assignments after
it.  On an array this sanitizes elementwise; on a Python int the item
assignment raises `TypeError` (ints support no item assignment). -/
def sanitizeStep : FvfmVal → Except String (List NpFloat)
  | .arr xs => .ok (xs.map sanitizeF)
  | .intScalar _ => .error "TypeError: int object does not support item assignment"

/-- `fvfm` as it stands after the division (or its fallback) and the three
sanitization lines. -/
def fvfmPipeline (divOk : Bool) (fvar fmaxA : List Nat) : Except String (List NpFloat) :=
  sanitizeStep (tryDivide divOk fvar fmaxA)

/-! ## `check_continue` -/

/-- An entry of the file list `check_continue` walks: its path and whether
`os.path.isdir` holds for it. -/
structure InFile where
  name : String
  isDir : Bool
deriving DecidableEq

/-- Python's `s[-8:]`: the last 8 characters (the whole string when it is
shorter). -/
def last8 (s : String) : String := String.mk (s.data.drop (s.data.length - 8))

/-- Left-pad a number to 4 digits: Python's `"{0:0>4}".format(i)`. -/
def pad4 (n : Nat) : String :=
  String.mk (List.replicate (4 - (toString n).length) '0') ++ toString n

/-- `["{0:0>4}.bin".format(i) for i in range(0, 102)]`: the 102 required
endings `0000.bin` .. `0101.bin` (both `check_continue` and
`perform_process` build this same list). -/
def fileEndings : List String := (List.range 102).map (fun i => pad4 i ++ ".bin")

/-- `check_continue` on the file list: collect the last-8-character endings
of every non-directory entry, and fail with `-1` and a message when
`set(file_endings).difference(set(source_endings))` is nonempty, i.e. when
some required ending has no matching file. -/
def check_continue (files : List InFile) : Int × Option String :=
  let source_endings := (files.filter (fun f => !f.isDir)).map (fun f => last8 f.name)
  if fileEndings.any (fun e => !source_endings.contains e) then
    (-1, some "Not all the necessary sensor files were found")
  else
    (0, none)

/-! ## `perform_process` -/

/-- An input file as `perform_process` sees it: its path and the byte size
of its raw contents (`np.fromfile(one_file, np.dtype('uint8'))` yields that
many uint8 samples). -/
structure PFile where
  name : String
  size : Nat
deriving DecidableEq

/-- One metadata record of `full_md`: whether it carries the
`terraref_cleaned_metadata` marker `find_terra_md` searches for. -/
structure MDRec where
  hasTerra : Bool
deriving DecidableEq

/-- `__internal__.find_terra_md`: the first metadata record carrying the
marker, if any. -/
def find_terra_md (full_md : List MDRec) : Option MDRec :=
  full_md.find? (fun m => m.hasTerra)

/-- `int(one_file[-8:-4])`: the frame index parsed from the four digit
characters of the file's ending. -/
def frameIndex (s : String) : Nat :=
  ((s.data.drop (s.data.length - 8)).take 4).foldl (fun a c => a * 10 + (c.toNat - 48)) 0

/-- One artifact descriptor appended to `file_md`: the per-frame PNG and
GeoTIFF, and the two aggregate images `analyze` saves. -/
inductive Artifact where
  | png : String → Artifact
  | tif : String → Artifact
  | combinedHist : Artifact
  | combinedPseudocolor : Artifact
deriving DecidableEq

/-- The loop state of `perform_process`: `files_processed`, the `file_md`
artifact list, and the `png_frames` dict (frame index to PNG path, modelled
as the association list of assignments). -/
structure LoopSt where
  files_processed : Nat
  file_md : List Artifact
  png_frames : List (Nat × String)
deriving DecidableEq

/-- One iteration of `for one_file in file_list`: a file whose ending is
not approved is skipped; otherwise `files_processed` is incremented, the
reshape to `[img_height, img_width]` raises `ValueError` (caught, loop
`continue`s) exactly when the buffer size differs from `width*height`, and
on success the PNG and GeoTIFF artifacts are recorded and `png_frames`
gains the frame's entry. -/
def processOne (wh : Nat) (st : LoopSt) (f : PFile) : LoopSt :=
  if fileEndings.contains (last8 f.name) then
    if f.size = wh then
      { files_processed := st.files_processed + 1,
        file_md := st.file_md ++ [.png f.name, .tif f.name],
        png_frames := st.png_frames ++ [(frameIndex f.name, f.name)] }
    else
      { st with files_processed := st.files_processed + 1 }
  else st

/-- The whole per-file loop of `perform_process`, started from the empty
state. -/
def processLoop (wh : Nat) (files : List PFile) : LoopSt :=
  files.foldl (processOne wh) ⟨0, [], []⟩

/-- Whether `__internal__.analyze` completes on the collected `png_frames`:
it subscripts `frames[0]`, `frames[1]` and `frames[i]` for `i` in 2..100
(and the selected F-max key, one of those positions), so it raises
`KeyError` exactly when one of the keys 0..100 is absent. -/
def analyzeOk (pf : List (Nat × String)) : Bool :=
  (List.range 101).all (fun i => (pf.map Prod.fst).contains i)

/-- The result dictionary `perform_process` returns: the success shape
`{'code': 0, 'file': .., name: {.., 'num_files_received', 'files_processed'}}`
or the failure shape `{'code': -1000, 'error': msg}` built by the
`except Exception` handler. -/
inductive PResult where
  | success : List Artifact → Nat → Nat → PResult
  | failure : String → PResult
deriving DecidableEq

/-- The `code` entry of the result dictionary. -/
def PResult.code : PResult → Int
  | .success _ _ _ => 0
  | .failure _ => -1000

/-- The `error` entry of the result dictionary (absent on success). -/
def PResult.errMsg : PResult → Option String
  | .success _ _ _ => none
  | .failure m => some m

/-- `perform_process`: `find_terra_md` failing raises `RuntimeError` BEFORE
the `try` block, escaping the function; inside the `try`, the per-file loop
runs, and when `files_processed > 0` the aggregate `analyze` is invoked on
`png_frames` — completing (appending the two aggregate artifacts) or
raising `KeyError` on an incomplete frame dict, which the blanket
`except Exception` turns into the `-1000` failure record. -/
def perform_process (full_md : List MDRec) (wh : Nat) (files : List PFile) :
    Except String PResult :=
  if (find_terra_md full_md).isNone then
    .error "Unable to find TERRA REF specific metadata"
  else
    let st := processLoop wh files
    if st.files_processed > 0 then
      if analyzeOk st.png_frames then
        .ok (.success (st.file_md ++ [.combinedHist, .combinedPseudocolor])
              files.length st.files_processed)
      else
        .ok (.failure "Exception caught converting PSII files")
    else
      .ok (.success st.file_md files.length st.files_processed)

/-! ## Concrete inputs used by counterexamples and witnesses -/

/-- A frame sequence in which frame 2 (the first candidate) uniquely
attains the overall frame-level maximum: frame 2 is the single pixel `10`,
every other frame the single pixel `5`. -/
def c1Frames : Nat → List Nat := fun i => if i = 2 then [10] else [5]

/-- A file list containing exactly the 101 frames `0000.bin` .. `0100.bin`
(all non-directories) and nothing else: every frame of indices 0..100 is
present, the timing file `0101.bin` is not. -/
def c2Files : List InFile :=
  (List.range 101).map (fun i => ⟨pad4 i ++ ".bin", false⟩)

/-- A frame sequence whose F-min frame (index 1, single pixel `20`)
pixelwise exceeds every other frame (single pixel `10`); `fave` never
consults frame 1, so the selected F-max is `[10]`. -/
def c3Frames : Nat → List Nat := fun i => if i = 1 then [20] else [10]

/-- The all-zero single-pixel frame sequence: every loaded frame is `[0]`,
so the sanitized ratio map is the constant `[0]`. -/
def constFrames : Nat → List Nat := fun _ => [0]

/-- A frame sequence agreeing with `constFrames` on every index 0..101 but
differing beyond the sequence's 102 slots. -/
def c9AltFrames : Nat → List Nat := fun i => if i ≤ 101 then [0] else [1, 2, 3]

/-! # Theorems -/

/-- The fold of `max` over a nonempty list is an element of it. -/
theorem foldr_max_mem (x : Nat) (xs : List Nat) : (x :: xs).foldr max 0 ∈ x :: xs := by
  induction xs generalizing x with
  | nil => simp
  | cons y t ih =>
      have h := ih y
      simp only [List.foldr_cons] at h ⊢
      rcases le_total x (max y (List.foldr max 0 t)) with hle | hle
      · rw [max_eq_right hle]
        exact List.mem_cons_of_mem x h
      · rw [max_eq_left hle]
        exact List.mem_cons_self x _

/-- The `fave` list has 100 entries (frame 0 and the 99 candidates). -/
theorem faveList_length (frames : Nat → List Nat) : (faveList frames).length = 100 := by
  simp [faveList]

/-- The position the code selects is within the `fave` list, hence below
100. -/
theorem selIdx_lt (frames : Nat → List Nat) : selIdx frames < 100 := by
  have hmem : (faveList frames).foldr max 0 ∈ faveList frames := by
    unfold faveList
    exact foldr_max_mem _ _
  have h := List.indexOf_lt_length.mpr hmem
  rw [faveList_length] at h
  exact h

/-- C1: the claim says `analyze` selects as F-max the frame (among index 0
and candidates 2..100) whose frame-level maximum equals the overall
maximum, lowest index on ties.  The code instead indexes `frames` with the
POSITION of the maximum inside the `fave` list: position 0 is frame 0, but
position `p ≥ 1` of `fave` holds frame `p+1`'s maximum, and the code loads
`frames[p]`.  On `c1Frames`, where frame 2 uniquely attains the overall
maximum 10, the code computes position 1 and loads `frames[1]` — the F-min
frame, whose frame-level maximum 5 is not the overall maximum. -/
theorem c1_fmax_selection_bug :
    selIdx c1Frames = 1 ∧
    frameMax (load_image_file (c1Frames (selIdx c1Frames))) = 5 ∧
    (faveList c1Frames).foldr max 0 = 10 ∧
    frameMax (load_image_file (c1Frames 2)) = 10 := by
  decide

/-- C2 counterexample: a file list holding a match for every required frame
ending of indices 0..100 — the claim's success condition — on which
`check_continue` nevertheless fails with `-1` and the error message,
because the code also requires the ending `0101.bin` (it builds
`range(0, 102)` endings). -/
theorem c2_counterexample_101_frames :
    check_continue c2Files =
      (-1, some "Not all the necessary sensor files were found") := by
  decide

/-- C2 amended: `check_continue` returns status 0 exactly when, for every
index i in 0..101 (102 endings, the timing file `0101.bin` included), some
non-directory input file's last 8 characters equal the required ending for
i; otherwise — and on no other condition — it returns `-1` paired with the
error message. -/
theorem c2_completeness_amended (files : List InFile) :
    (check_continue files = ((0 : Int), (none : Option String)) ∨
      check_continue files =
        (-1, some "Not all the necessary sensor files were found")) ∧
    (check_continue files = ((0 : Int), (none : Option String)) ↔
      ∀ e ∈ fileEndings, ∃ f ∈ files, f.isDir = false ∧ last8 f.name = e) := by
  have key : (fileEndings.any (fun e =>
      !((files.filter (fun f => !f.isDir)).map (fun f => last8 f.name)).contains e)) = false ↔
      ∀ e ∈ fileEndings, ∃ f ∈ files, f.isDir = false ∧ last8 f.name = e := by
    simp [List.any_eq_true, List.elem_iff, List.mem_map, List.mem_filter]
  constructor
  · unfold check_continue
    dsimp only
    split
    · right; rfl
    · left; rfl
  · unfold check_continue
    dsimp only
    split
    · next h =>
        constructor
        · intro hc; exact absurd hc (by simp)
        · intro hall
          rw [key.mpr hall] at h
          cases h
    · next h =>
        constructor
        · intro _
          exact key.mp (by simpa using h)
        · intro _; rfl

/-- C3 counterexample: on `c3Frames` the F-min pixel 20 exceeds the
selected F-max pixel 10; the claim says `fvar` holds the true negative
difference `-10` and the resulting negative ratio passes through
sanitization unchanged.  The code's `np.subtract` on uint8 wraps: `fvar` is
`[246]`, which is not the signed difference, and the final sanitized ratio
is `0`, not a preserved negative value. -/
theorem c3_counterexample_wraparound :
    List.zipWith sub8 (load_image_file (c3Frames (selIdx c3Frames)))
        (load_image_file (c3Frames 1)) = [246] ∧
    ((246 : ℤ) ≠ (10 : ℤ) - 20) ∧
    (analyzeModel c3Frames).fvfm = [.val 0] := by
  decide

/-- C3 amended: `fvar = np.subtract(fmax, fmin)` on uint8 frames is the
difference modulo 2^8 (wrap-around, congruent to the signed difference mod
256), not signed arithmetic; wherever a pixel of `fmin` exceeds the
corresponding pixel of `fmax`, the wrapped value exceeds the `fmax` pixel,
so the subsequent division yields a ratio above 1 (or +inf when the `fmax`
pixel is 0) and sanitization forces that element to 0 — a negative Fv/Fm
value never reaches the output. -/
theorem c3_fvar_uint8_amended (a b : Nat) (ha : a < 256) (hb : b < 256) :
    ((sub8 a b : ℤ) = ((a : ℤ) - b) % 256) ∧
    (a < b → sanitizeF (fdiv (sub8 a b) a) = .val 0) := by
  constructor
  · unfold sub8
    omega
  · intro hab
    rcases Nat.eq_zero_or_pos a with h0 | hpos
    · subst h0
      have hne : sub8 0 b ≠ 0 := by unfold sub8; omega
      unfold fdiv
      simp [hne]
      rfl
    · have hgt : a < sub8 a b := by unfold sub8; omega
      have hq : (1 : ℚ) < mkRat (sub8 a b) a := by
        rw [Rat.mkRat_eq_div]
        rw [lt_div_iff₀ (by exact_mod_cast hpos)]
        rw [one_mul]
        exact_mod_cast hgt
      have hma : a ≠ 0 := Nat.pos_iff_ne_zero.mp hpos
      unfold fdiv
      simp [hma]
      unfold sanitizeF sanitizeNaN sanitizeInf sanitizeGtOne isNaNF isInfF gtOneF
      simp [hq]

/-- C3 amended witness: at the concrete pixels `fmax = 10`, `fmin = 20`,
the wrapped `fvar` is congruent to `-10` mod 256 and the sanitized ratio
element is 0. -/
theorem c3_fvar_uint8_amended_witness :
    ((sub8 10 20 : ℤ) = ((10 : ℤ) - 20) % 256) ∧
    sanitizeF (fdiv (sub8 10 20) 10) = .val 0 := by
  have h := c3_fvar_uint8_amended 10 20 (by decide) (by decide)
  exact ⟨h.1, h.2 (by decide)⟩

/-- C4: the claim says that when the elementwise division cannot be
performed, `analyze` falls back to an all-zero ratio map and completes
without raising.  The `except` branch actually binds `fvfm` to the Python
scalar int 0, and the very next sanitization statement
`fvfm[np.where(np.isnan(fvfm))] = 0` is an item assignment on an int, which
raises `TypeError`: whenever the fallback is taken the analyzer raises
instead of completing with a zero map (here evaluated at `fvar = [246]`,
`fmax = [10]`, and in general for every pair of arrays). -/
theorem c4_divide_fallback_raises :
    fvfmPipeline false [246] [10] =
      .error "TypeError: int object does not support item assignment" ∧
    ∀ fvar fmaxA : List Nat, fvfmPipeline false fvar fmaxA =
      .error "TypeError: int object does not support item assignment" := by
  exact ⟨rfl, fun _ _ => rfl⟩

/-- C5: sanitization maps every element as the claim states — NaN to 0,
both infinities to 0, any value strictly greater than 1.0 to 0, and every
other value (all of [0,1] including 0, and all negative values) is left
unchanged; in particular the elements {NaN, +Inf, 1.5, 0.3} sanitize to
{0, 0, 0, 0.3}. -/
theorem c5_sanitization :
    (∀ x : NpFloat, sanitizeF x =
      if isNaNF x then .val 0 else if isInfF x then .val 0
      else if gtOneF x then .val 0 else x) ∧
    ([NpFloat.nan, NpFloat.inf, NpFloat.val (3/2), NpFloat.val (3/10)].map sanitizeF =
      [NpFloat.val 0, NpFloat.val 0, NpFloat.val 0, NpFloat.val (3/10)]) := by
  constructor
  · intro x
    cases x <;> rfl
  · norm_num [sanitizeF, sanitizeNaN, sanitizeInf, sanitizeGtOne, isNaNF, isInfF, gtOneF]

/-- C9: the analyzer is deterministic — two runs on frame sequences with
identical contents (all 102 slots, indices 0..101, equal) produce
identical sanitized ratio maps and identical histograms.  The proof tracks
that the pipeline reads only frames 0, 1, 2..100 and the selected
position, which lies inside the 100-entry `fave` list. -/
theorem c9_determinism (f g : Nat → List Nat) (h : ∀ i, i ≤ 101 → f i = g i) :
    analyzeModel f = analyzeModel g := by
  have hfave : faveList f = faveList g := by
    unfold faveList
    rw [h 0 (by omega)]
    congr 1
    apply List.map_congr_left
    intro j hj
    have hj99 : j < 99 := List.mem_range.mp hj
    rw [h (j + 2) (by omega)]
  have hsel : selIdx f = selIdx g := by
    unfold selIdx
    rw [hfave]
  have hle : selIdx f ≤ 101 := le_of_lt (lt_of_lt_of_le (selIdx_lt f) (by omega))
  unfold analyzeModel fvfmSanitized
  rw [h 1 (by omega), hsel, h (selIdx g) (hsel ▸ hle)]

/-- C9 witness: two definitionally different frame sequences with equal
contents on indices 0..101 give equal analyzer outputs. -/
theorem c9_determinism_witness : analyzeModel constFrames = analyzeModel c9AltFrames :=
  c9_determinism constFrames c9AltFrames
    (fun i hi => by simp [constFrames, c9AltFrames, hi])

/-- `processOne` treats the `files_processed` counter additively: running
it from a state whose counter is shifted by `k` shifts the result's counter
by `k` and leaves the artifacts and frame dict as from the unshifted
state. -/
theorem processOne_shift (wh : Nat) (st : LoopSt) (k : Nat) (g : PFile) :
    processOne wh ⟨st.files_processed + k, st.file_md, st.png_frames⟩ g =
      ⟨(processOne wh st g).files_processed + k, (processOne wh st g).file_md,
        (processOne wh st g).png_frames⟩ := by
  unfold processOne
  split
  · split
    · simp only [LoopSt.mk.injEq]
      exact ⟨by omega, trivial, trivial⟩
    · simp only [LoopSt.mk.injEq]
      exact ⟨by omega, trivial, trivial⟩
  · rfl

/-- The per-file fold from a counter-shifted state. -/
theorem foldl_processOne_shift (wh k : Nat) (files : List PFile) : ∀ st : LoopSt,
    files.foldl (processOne wh) ⟨st.files_processed + k, st.file_md, st.png_frames⟩ =
      ⟨(files.foldl (processOne wh) st).files_processed + k,
        (files.foldl (processOne wh) st).file_md,
        (files.foldl (processOne wh) st).png_frames⟩ := by
  induction files with
  | nil => intro st; rfl
  | cons g t ih =>
      intro st
      simp only [List.foldl_cons]
      rw [processOne_shift]
      exact ih (processOne wh st g)

/-- C7: a file whose ending matches a required frame ending but whose raw
buffer size differs from the expected `width*height` is skipped — the loop
produces no artifact and no `png_frames` entry for it — and processing
continues: the loop's outputs are exactly those of the same file list with
the bad file removed, with only `files_processed` counting one more.  The
loop never aborts (the `ValueError` is caught and turned into
`continue`). -/
theorem c7_decode_failure_skips_frame (wh : Nat) (before after : List PFile) (f : PFile)
    (hmatch : fileEndings.contains (last8 f.name) = true) (hbad : f.size ≠ wh) :
    (processLoop wh (before ++ f :: after)).file_md =
        (processLoop wh (before ++ after)).file_md ∧
    (processLoop wh (before ++ f :: after)).png_frames =
        (processLoop wh (before ++ after)).png_frames ∧
    (processLoop wh (before ++ f :: after)).files_processed =
        (processLoop wh (before ++ after)).files_processed + 1 := by
  have h1 : processLoop wh (before ++ f :: after) =
      ⟨(processLoop wh (before ++ after)).files_processed + 1,
        (processLoop wh (before ++ after)).file_md,
        (processLoop wh (before ++ after)).png_frames⟩ := by
    unfold processLoop
    rw [List.foldl_append, List.foldl_append, List.foldl_cons]
    have hpo : processOne wh (List.foldl (processOne wh) ⟨0, [], []⟩ before) f =
        ⟨(List.foldl (processOne wh) ⟨0, [], []⟩ before).files_processed + 1,
          (List.foldl (processOne wh) ⟨0, [], []⟩ before).file_md,
          (List.foldl (processOne wh) ⟨0, [], []⟩ before).png_frames⟩ := by
      unfold processOne
      rw [if_pos hmatch, if_neg hbad]
    rw [hpo]
    exact foldl_processOne_shift wh 1 after (List.foldl (processOne wh) ⟨0, [], []⟩ before)
  rw [h1]
  exact ⟨rfl, rfl, rfl⟩

/-- C7 witness: the single file `0000.bin` with a 5-byte buffer against an
expected resolution of 1 pixel is counted but produces nothing, and the
loop completes as if the file list were empty. -/
theorem c7_decode_failure_skips_frame_witness :
    (processLoop 1 ([] ++ (⟨"0000.bin", 5⟩ : PFile) :: [])).file_md =
        (processLoop 1 ([] ++ [])).file_md ∧
    (processLoop 1 ([] ++ (⟨"0000.bin", 5⟩ : PFile) :: [])).png_frames =
        (processLoop 1 ([] ++ [])).png_frames ∧
    (processLoop 1 ([] ++ (⟨"0000.bin", 5⟩ : PFile) :: [])).files_processed =
        (processLoop 1 ([] ++ [])).files_processed + 1 :=
  c7_decode_failure_skips_frame 1 [] [] ⟨"0000.bin", 5⟩ (by decide) (by decide)

/-- C8 counterexample: on metadata holding no TERRA REF record,
`perform_process` raises `RuntimeError` (the `raise` sits before the
`try` block), so the failure escapes without any result record — against
the claim that every failure returns a record pairing a negative code with
a message. -/
theorem c8_counterexample_missing_terra :
    perform_process [] 1 [] =
      .error "Unable to find TERRA REF specific metadata" := rfl

/-- C8 amended: whenever `perform_process` returns a result record, the
record's code is 0 with no error entry on success, or the negative code
`-1000` paired with an error message on failure; but when the TERRA REF
metadata is missing — and exactly then — the function instead raises
`RuntimeError` and no record is returned. -/
theorem c8_result_code_amended (full_md : List MDRec) (wh : Nat) (files : List PFile) :
    (∀ r, perform_process full_md wh files = .ok r →
      (r.code = 0 ∧ r.errMsg = none) ∨ (r.code = -1000 ∧ r.errMsg.isSome = true)) ∧
    (perform_process full_md wh files =
        .error "Unable to find TERRA REF specific metadata" ↔
      find_terra_md full_md = none) := by
  unfold perform_process
  split
  · next h =>
      constructor
      · intro r hr
        simp at hr
      · have hn : find_terra_md full_md = none := Option.isNone_iff_eq_none.mp h
        simp [hn]
  · next h =>
      constructor
      · intro r hr
        dsimp only at hr
        split at hr
        · split at hr
          · cases hr
            left
            exact ⟨rfl, rfl⟩
          · cases hr
            right
            exact ⟨rfl, rfl⟩
        · cases hr
          left
          exact ⟨rfl, rfl⟩
      · constructor
        · intro hr
          dsimp only at hr
          split at hr
          · split at hr <;> cases hr
          · cases hr
        · intro hnone
          rw [hnone] at h
          simp at h

/-- C8 witness: a run with TERRA metadata present and no input files
returns the success record with code 0, and the characterization applies
to it. -/
theorem c8_result_code_amended_witness :
    ((PResult.success ([] : List Artifact) 0 0).code = 0 ∧
      (PResult.success ([] : List Artifact) 0 0).errMsg = none) ∨
    ((PResult.success ([] : List Artifact) 0 0).code = -1000 ∧
      (PResult.success ([] : List Artifact) 0 0).errMsg.isSome = true) :=
  (c8_result_code_amended [⟨true⟩] 1 []).1 (PResult.success [] 0 0) rfl

/-- The `files_processed` counter after the loop equals the number of
files whose ending matches a required frame ending — including those whose
decode failed. -/
theorem foldl_processOne_count (wh : Nat) (files : List PFile) : ∀ st : LoopSt,
    (files.foldl (processOne wh) st).files_processed =
      st.files_processed + files.countP (fun f => fileEndings.contains (last8 f.name)) := by
  induction files with
  | nil => intro st; simp
  | cons g t ih =>
      intro st
      simp only [List.foldl_cons, List.countP_cons]
      rw [ih (processOne wh st g)]
      unfold processOne
      split
      · next hm =>
          split
          · simp [hm]
            omega
          · simp [hm]
            omega
      · next hm =>
          rw [Bool.not_eq_true] at hm
          simp [hm]

/-- C10: with TERRA metadata present, `files_processed` counts every file
with a matching ending (decode failures included), and whenever that count
is positive `perform_process`'s outcome is the analyzer invocation's —
either the success record carrying the two aggregate artifacts, or, when
the collected `png_frames` misses one of the required keys 0..100, the
`-1000` record produced by the `KeyError` the invoked analyzer raises;
completeness of the 101-frame set is not re-verified before invoking it. -/
theorem c10_aggregate_invocation (full_md : List MDRec) (wh : Nat) (files : List PFile)
    (hterra : (find_terra_md full_md).isSome = true) :
    (processLoop wh files).files_processed =
        files.countP (fun f => fileEndings.contains (last8 f.name)) ∧
    (0 < (processLoop wh files).files_processed →
      perform_process full_md wh files =
        (if analyzeOk (processLoop wh files).png_frames then
          .ok (.success ((processLoop wh files).file_md ++
                  [.combinedHist, .combinedPseudocolor])
                files.length (processLoop wh files).files_processed)
        else .ok (.failure "Exception caught converting PSII files"))) := by
  constructor
  · unfold processLoop
    rw [foldl_processOne_count wh files ⟨0, [], []⟩]
    simp
  · intro hpos
    unfold perform_process
    have hfalse : (find_terra_md full_md).isNone = false := by
      cases hfm : find_terra_md full_md with
      | none => rw [hfm] at hterra; cases hterra
      | some m => rfl
    rw [hfalse]
    dsimp only
    rw [if_neg (by simp)]
    rw [if_pos hpos]

/-- C10 witness: a single matching file `0047.bin` whose 5-byte buffer
fails the reshape against a 1-pixel resolution is still counted
(`files_processed = 1`), and the analyzer is invoked on the empty
`png_frames`, raising `KeyError` and yielding the `-1000` record — the
analysis ran although the 101-frame set was incomplete. -/
theorem c10_aggregate_invocation_witness :
    (processLoop 1 [⟨"0047.bin", 5⟩]).files_processed =
        [(⟨"0047.bin", 5⟩ : PFile)].countP
          (fun f => fileEndings.contains (last8 f.name)) ∧
    perform_process [⟨true⟩] 1 [⟨"0047.bin", 5⟩] =
      .ok (.failure "Exception caught converting PSII files") := by
  have h := c10_aggregate_invocation [⟨true⟩] 1 [⟨"0047.bin", 5⟩] (by decide)
  refine ⟨h.1, ?_⟩
  have h2 := h.2 (by decide)
  have h3 : analyzeOk (processLoop 1 [⟨"0047.bin", 5⟩]).png_frames = false := by decide
  rw [h2, h3]
  simp

/-- A `min`-fold is bounded by its initial accumulator. -/
theorem foldl_min_le_init (xs : List ℚ) : ∀ a : ℚ, xs.foldl min a ≤ a := by
  induction xs with
  | nil => intro a; exact le_refl a
  | cons y t ih =>
      intro a
      simp only [List.foldl_cons]
      exact le_trans (ih (min a y)) (min_le_left a y)

/-- A `min`-fold is bounded by every member of the list. -/
theorem foldl_min_le_mem (xs : List ℚ) : ∀ a y, y ∈ xs → xs.foldl min a ≤ y := by
  induction xs with
  | nil => intro a y hy; cases hy
  | cons z t ih =>
      intro a y hy
      simp only [List.foldl_cons]
      rcases List.mem_cons.mp hy with rfl | hyt
      · exact le_trans (foldl_min_le_init t (min a y)) (min_le_right a y)
      · exact ih (min a z) y hyt

/-- `np.min` bounds every member from below. -/
theorem listMinQ_le (data : List ℚ) (x : ℚ) (hx : x ∈ data) : listMinQ data ≤ x := by
  cases data with
  | nil => cases hx
  | cons a t =>
      unfold listMinQ
      rcases List.mem_cons.mp hx with rfl | hxt
      · exact foldl_min_le_init t x
      · exact foldl_min_le_mem t a x hxt

/-- A `max`-fold dominates its initial accumulator. -/
theorem foldl_max_init_le (xs : List ℚ) : ∀ a : ℚ, a ≤ xs.foldl max a := by
  induction xs with
  | nil => intro a; exact le_refl a
  | cons y t ih =>
      intro a
      simp only [List.foldl_cons]
      exact le_trans (le_max_left a y) (ih (max a y))

/-- A `max`-fold dominates every member of the list. -/
theorem foldl_max_mem_le (xs : List ℚ) : ∀ a y, y ∈ xs → y ≤ xs.foldl max a := by
  induction xs with
  | nil => intro a y hy; cases hy
  | cons z t ih =>
      intro a y hy
      simp only [List.foldl_cons]
      rcases List.mem_cons.mp hy with rfl | hyt
      · exact le_trans (le_max_right a y) (foldl_max_init_le t (max a y))
      · exact ih (max a z) y hyt

/-- `np.max` bounds every member from above. -/
theorem le_listMaxQ (data : List ℚ) (x : ℚ) (hx : x ∈ data) : x ≤ listMaxQ data := by
  cases data with
  | nil => cases hx
  | cons a t =>
      unfold listMaxQ
      rcases List.mem_cons.mp hx with rfl | hxt
      · exact foldl_max_init_le t x
      · exact foldl_max_mem_le t a x hxt

/-- On a nonempty array the minimum is at most the maximum. -/
theorem listMinQ_le_listMaxQ (data : List ℚ) (h : data ≠ []) :
    listMinQ data ≤ listMaxQ data := by
  cases data with
  | nil => exact absurd rfl h
  | cons a t =>
      exact le_trans (listMinQ_le (a :: t) a (List.mem_cons_self a t))
        (le_listMaxQ (a :: t) a (List.mem_cons_self a t))

/-- The histogram range is always nondegenerate: lower edge strictly
below upper edge (numpy widens a constant array's range by 0.5 each way). -/
theorem histEdgesRange_lt (data : List ℚ) (h : data ≠ []) :
    (histEdgesRange data).1 < (histEdgesRange data).2 := by
  have hle := listMinQ_le_listMaxQ data h
  unfold histEdgesRange
  dsimp only
  split
  · next heq => dsimp only; linarith
  · next hne => dsimp only; exact lt_of_le_of_ne hle hne

/-- Every data value lies inside the histogram range. -/
theorem histEdgesRange_mem (data : List ℚ) (x : ℚ) (hx : x ∈ data) :
    (histEdgesRange data).1 ≤ x ∧ x ≤ (histEdgesRange data).2 := by
  have h1 := listMinQ_le data x hx
  have h2 := le_listMaxQ data x hx
  unfold histEdgesRange
  dsimp only
  split
  · next heq => dsimp only; constructor <;> linarith
  · next hne => exact ⟨h1, h2⟩

/-- Summing zeros over a range is zero. -/
theorem sum_map_range_zero (n : Nat) : ((List.range n).map (fun _ => (0 : Nat))).sum = 0 := by
  induction n with
  | zero => rfl
  | succ m ih => rw [List.range_succ]; simp [ih]

/-- A sum over a range splits over pointwise addition. -/
theorem sum_map_range_add (n : Nat) (f g : Nat → Nat) :
    ((List.range n).map (fun b => f b + g b)).sum =
      ((List.range n).map f).sum + ((List.range n).map g).sum := by
  induction n with
  | zero => rfl
  | succ m ih =>
      rw [List.range_succ]
      simp [ih]
      omega

/-- Summing the indicator of one value over a range counts whether the
value lies in the range. -/
theorem sum_map_range_ite (n k : Nat) :
    ((List.range n).map (fun b => if k = b then 1 else 0)).sum =
      if k < n then 1 else 0 := by
  induction n with
  | zero => simp
  | succ m ih =>
      rw [List.range_succ]
      simp [ih]
      split_ifs <;> omega

/-- Partition counting: when every element satisfies the filter and falls
in one of `n` bins, the per-bin counts sum to the list's length. -/
theorem countP_partition (n : Nat) (p : ℚ → Bool) (g : ℚ → Nat) (l : List ℚ)
    (h : ∀ x ∈ l, p x = true ∧ g x < n) :
    ((List.range n).map (fun b => l.countP (fun x => p x && (g x == b)))).sum = l.length := by
  induction l with
  | nil => simp [sum_map_range_zero]
  | cons x t ih =>
      have hx := h x (List.mem_cons_self x t)
      have ht : ∀ y ∈ t, p y = true ∧ g y < n := fun y hy => h y (List.mem_cons_of_mem x hy)
      have hrw : (fun b => (x :: t).countP (fun y => p y && (g y == b))) =
          (fun b => t.countP (fun y => p y && (g y == b)) + if g x = b then 1 else 0) := by
        funext b
        rw [List.countP_cons]
        congr 1
        rw [hx.1]
        simp [beq_iff_eq]
      rw [hrw, sum_map_range_add, ih ht, sum_map_range_ite, if_pos hx.2]
      simp
/-- `np.histogram(_, bins=20)` returns exactly 20 bin counts. -/
theorem histogram_counts_length (data : List ℚ) : (histogram data).1.length = 20 := by
  simp [histogram]

/-- `np.histogram(_, bins=20)` returns exactly 21 bin edges. -/
theorem histogram_bins_length (data : List ℚ) : (histogram data).2.length = 21 := by
  simp [histogram]

/-- The bin edges are strictly increasing. -/
theorem histogram_bins_pairwise (data : List ℚ) (h : data ≠ []) :
    (histogram data).2.Pairwise (· < ·) := by
  have hlt := histEdgesRange_lt data h
  unfold histogram
  dsimp only
  rw [List.pairwise_map]
  refine (List.pairwise_lt_range 21).imp ?_
  intro i j hij
  have hij' : (i : ℚ) < j := by exact_mod_cast hij
  have hs : (0 : ℚ) < ((histEdgesRange data).2 - (histEdgesRange data).1) / 20 := by
    apply div_pos
    · linarith
    · norm_num
  have h1 : (i : ℚ) * ((histEdgesRange data).2 - (histEdgesRange data).1) / 20 <
      (j : ℚ) * ((histEdgesRange data).2 - (histEdgesRange data).1) / 20 := by
    rw [mul_div_assoc, mul_div_assoc]
    exact mul_lt_mul_of_pos_right hij' hs
  linarith

/-- The first bin edge is the lower end of the histogram range. -/
theorem histogram_bins_head (data : List ℚ) :
    (histogram data).2.head? = some (histEdgesRange data).1 := by
  unfold histogram
  dsimp only
  rw [List.head?_map]
  rw [show (List.range 21).head? = some 0 from rfl]
  simp

/-- The last bin edge is the upper end of the histogram range. -/
theorem histogram_bins_last (data : List ℚ) :
    (histogram data).2.getLast? = some (histEdgesRange data).2 := by
  unfold histogram
  dsimp only
  rw [show List.range 21 = List.range 20 ++ [20] from List.range_succ 20]
  rw [List.map_append]
  simp only [List.map_cons, List.map_nil]
  rw [List.getLast?_concat]
  have harith : ∀ a b : ℚ, a + 20 * (b - a) / 20 = b := by
    intro a b
    ring
  rw [show ((20 : ℕ) : ℚ) = (20 : ℚ) from by norm_num]
  rw [harith]

/-- The bin counts sum to the data's length: the range is the data's own
min/max, so no value is dropped as out of range. -/
theorem histogram_counts_sum (data : List ℚ) :
    (histogram data).1.sum = data.length := by
  unfold histogram
  dsimp only
  refine countP_partition 20
    (fun x => decide ((histEdgesRange data).1 ≤ x) && decide (x ≤ (histEdgesRange data).2))
    (fun x => binIdx (histEdgesRange data).1 (histEdgesRange data).2 x) data ?_
  intro x hx
  have hb := histEdgesRange_mem data x hx
  constructor
  · simp [hb.1, hb.2]
  · unfold binIdx
    exact Nat.lt_succ_of_le (Nat.min_le_left 19 _)
/-- C6 amended: the histogram has exactly 20 bin counts and 21 bin edges,
the edges are strictly increasing, and the counts sum to the pixel count of
the ratio map; the edges span the data's actual minimum to its actual
maximum whenever the map holds two distinct values, but when every value is
equal numpy widens the range to `(v - 0.5, v + 0.5)` and the edges span
that widened interval instead of the degenerate actual min/max. -/
theorem c6_histogram_amended (frames : Nat → List Nat)
    (h : fvfmSanitized frames ≠ []) :
    (analyzeModel frames).hist.length = 20 ∧
    (analyzeModel frames).bins.length = 21 ∧
    (analyzeModel frames).bins.Pairwise (· < ·) ∧
    (analyzeModel frames).hist.sum = (analyzeModel frames).fvfm.length ∧
    (listMinQ ((analyzeModel frames).fvfm.map toRatF) <
        listMaxQ ((analyzeModel frames).fvfm.map toRatF) →
      (analyzeModel frames).bins.head? =
          some (listMinQ ((analyzeModel frames).fvfm.map toRatF)) ∧
      (analyzeModel frames).bins.getLast? =
          some (listMaxQ ((analyzeModel frames).fvfm.map toRatF))) ∧
    (listMinQ ((analyzeModel frames).fvfm.map toRatF) =
        listMaxQ ((analyzeModel frames).fvfm.map toRatF) →
      (analyzeModel frames).bins.head? =
          some (listMinQ ((analyzeModel frames).fvfm.map toRatF) - 1/2) ∧
      (analyzeModel frames).bins.getLast? =
          some (listMaxQ ((analyzeModel frames).fvfm.map toRatF) + 1/2)) := by
  have hne : (fvfmSanitized frames).map toRatF ≠ [] := by
    intro hc
    exact h (List.map_eq_nil_iff.mp hc)
  have hfv : (analyzeModel frames).fvfm = fvfmSanitized frames := rfl
  simp only [hfv]
  refine ⟨histogram_counts_length _, histogram_bins_length _,
    histogram_bins_pairwise _ hne,
    (histogram_counts_sum _).trans (List.length_map _ _), ?_, ?_⟩
  · intro hlt
    have hr : histEdgesRange ((fvfmSanitized frames).map toRatF) =
        (listMinQ ((fvfmSanitized frames).map toRatF),
          listMaxQ ((fvfmSanitized frames).map toRatF)) := by
      unfold histEdgesRange
      dsimp only
      rw [if_neg (ne_of_lt hlt)]
    refine ⟨?_, ?_⟩
    · exact (histogram_bins_head _).trans (by rw [hr])
    · exact (histogram_bins_last _).trans (by rw [hr])
  · intro heq2
    have hr : histEdgesRange ((fvfmSanitized frames).map toRatF) =
        (listMinQ ((fvfmSanitized frames).map toRatF) - 1/2,
          listMaxQ ((fvfmSanitized frames).map toRatF) + 1/2) := by
      unfold histEdgesRange
      dsimp only
      rw [if_pos heq2]
    refine ⟨?_, ?_⟩
    · exact (histogram_bins_head _).trans (by rw [hr])
    · exact (histogram_bins_last _).trans (by rw [hr])

/-- C6 witness: on the constant frame sequence the histogram has 20
counts summing to the one-pixel ratio map's length. -/
theorem c6_histogram_amended_witness :
    (analyzeModel constFrames).hist.length = 20 ∧
    (analyzeModel constFrames).hist.sum = (analyzeModel constFrames).fvfm.length := by
  have h := c6_histogram_amended constFrames (by decide)
  exact ⟨h.1, h.2.2.2.1⟩

/-- C6 counterexample: the all-zero frames give the constant sanitized
ratio map `[0]`, whose actual minimum is 0, yet the first histogram bin
edge is `-1/2`: the edges do not span the actual minimum to the actual
maximum, against the claim's universal statement. -/
theorem c6_counterexample_constant_map :
    (fvfmSanitized constFrames).map toRatF = [0] ∧
    listMinQ ((fvfmSanitized constFrames).map toRatF) = 0 ∧
    (analyzeModel constFrames).bins.head? = some (-(1/2 : ℚ)) := by
  have hdata : (fvfmSanitized constFrames).map toRatF = [0] := by decide
  refine ⟨hdata, by rw [hdata]; rfl, ?_⟩
  show (histogram ((fvfmSanitized constFrames).map toRatF)).2.head? = some (-(1/2 : ℚ))
  rw [hdata, histogram_bins_head]
  have hr : histEdgesRange [(0 : ℚ)] = (0 - 1/2, 0 + 1/2) := by
    unfold histEdgesRange
    simp [listMinQ, listMaxQ]
  rw [hr]
  norm_num

end PsiiPng
